import Mathlib

/-!
# Verification of `firmware/plotter.py`

Shallow embedding of the core of `firmware/plotter.py`: the sliding-window
deques (`data_pred`, `data_true`, `data_x` with `maxlen = MAX_POINTS`), the
regex-based line parser used by `read_serial`, the producer loop, the
`update` animation callback, and the lifecycle / cleanup behaviour.

Modelling conventions:
* Python `float` values are modelled as exact rationals (`ℚ`); the numeric
  literals that occur in the serial protocol are finite decimals, whose
  mathematical value is what we reason about.
* Text lines are modelled post-decoding as `List Char` (the script decodes
  with `errors='ignore'`, so every line the parser sees is ordinary text).
* A `deque(maxlen=N)` is modelled as a `List` holding the retained elements
  oldest first; `append` keeps the last `N` elements.
-/

namespace Plotter

/-- Window width, `MAX_POINTS = 200` in plotter.py line 22. -/
def MAX_POINTS : Nat := 200

/-- Model of the append of a deque with maxlen `N`: the new element is added at the
newest end and, if the deque was full, the oldest element is discarded, so the
result is the last `N` elements of `q ++ [x]` (plotter.py lines 27-29). -/
def dequeAppend (N : Nat) (q : List α) (x : α) : List α :=
  (q ++ [x]).drop ((q ++ [x]).length - N)

/-- Appending a whole list of elements, one by one, into an initially empty
deque of capacity `N`. -/
def appendAll (N : Nat) (xs : List α) : List α :=
  xs.foldl (dequeAppend N) []

/-! ## The parser of `read_serial`

`read_serial` (plotter.py lines 51-59) strips the decoded line and runs
`re.search(r"Pred:([-+]?\d*\.\d+|[-+]?\d+),True:([-+]?\d*\.\d+|[-+]?\d+)", line)`,
then converts the two captured groups with `float`.

The regex is compiled here into explicit functions.  The digit class `\d`
of a `str` pattern matches every Unicode decimal digit (category `Nd`),
not only ASCII `0-9`; it is modelled by `pyIsDigit` over the table of `Nd`
blocks.  Greedy matching with backtracking is deterministic for this pattern: inside each alternative the
optional sign is followed by a digit/dot requirement (so the engine consumes a
leading sign exactly when one is present), `\d*` and `\d+` are followed either
by a literal `.`/`,` or by the end of the pattern, and shrinking a greedy
digit run always leaves a digit in a position where a non-digit is required.
Hence each alternative either fails or matches a unique extent, namely the
maximal digit runs taken below.  Alternative-level backtracking (trying
`[-+]?\d+` after `[-+]?\d*\.\d+` has matched but the continuation failed) is
kept explicitly. -/

/-- Characters removed by Python `str.strip()` (the ASCII whitespace set;
the decoded telemetry lines contain no exotic Unicode spaces). -/
def pyIsSpace (c : Char) : Bool :=
  c == ' ' || c == '\t' || c == '\n' || c == '\r' || c == '\x0b' || c == '\x0c'

/-- Model of Python `str.strip()`: removes leading and trailing whitespace. -/
def pyStrip (s : List Char) : List Char :=
  ((s.dropWhile pyIsSpace).reverse.dropWhile pyIsSpace).reverse

/-- The literal token `Pred:` of the regex. -/
def predTok : List Char := 'P' :: 'r' :: 'e' :: 'd' :: ':' :: []

/-- The literal token `,True:` of the regex. -/
def trueTok : List Char := ',' :: 'T' :: 'r' :: 'u' :: 'e' :: ':' :: []

/-- Start codepoints of the Unicode `Nd` (decimal digit) blocks: every `Nd`
character sits in an aligned run of exactly 10 codepoints whose decimal
values are 0..9 in order (Unicode data 14.0, as shipped with the Python
runtime).  Python's `\d` in a `str` pattern matches exactly these
characters, and `float()` accepts them with these values. -/
def ndBlocks : List Nat :=
  [48, 1632, 1776, 1984, 2406, 2534, 2662, 2790, 2918, 3046, 3174, 3302,
   3430, 3558, 3664, 3792, 3872, 4160, 4240, 6112, 6160, 6470, 6608, 6784,
   6800, 6992, 7088, 7232, 7248, 42528, 43216, 43264, 43472, 43504, 43600,
   44016, 65296, 66720, 68912, 69734, 69872, 69942, 70096, 70384, 70736,
   70864, 71248, 71360, 71472, 71904, 72016, 72784, 73040, 73120, 92768,
   92864, 93008, 120782, 120792, 120802, 120812, 120822, 123200, 123632,
   125264, 130032]

/-- The `Nd` block a character belongs to, if any. -/
def ndFind (c : Char) : Option Nat :=
  ndBlocks.find? fun b => b ≤ c.toNat && c.toNat < b + 10

/-- The regex digit class `\d` of a `str` pattern: a Unicode decimal digit
(category `Nd`). -/
def pyIsDigit (c : Char) : Bool := (ndFind c).isSome

/-- The decimal value of a digit character (offset within its `Nd` block). -/
def digitVal (c : Char) : Nat :=
  match ndFind c with
  | some b => c.toNat - b
  | none => 0

/-- Numeric value of a digit string, most significant digit first. -/
def digitsToNat (ds : List Char) : Nat :=
  ds.foldl (fun a c => 10 * a + digitVal c) 0

/-- The optional sign `[-+]?`: split a leading `+` or `-` off the input. -/
def splitSign (s : List Char) : List Char × List Char :=
  match s with
  | [] => ([], [])
  | c :: r => if c = '+' || c = '-' then ([c], r) else ([], c :: r)

/-- The regex alternative `[-+]?\d*\.\d+` at the current position: returns the
matched characters and the remainder, or `none`. -/
def numFrac (s : List Char) : Option (List Char × List Char) :=
  let sg := splitSign s
  let ip := sg.2.takeWhile pyIsDigit
  match sg.2.dropWhile pyIsDigit with
  | [] => none
  | c :: s3 =>
      if c = '.' then
        let fp := s3.takeWhile pyIsDigit
        if fp.isEmpty then none
        else some (sg.1 ++ ip ++ '.' :: fp, s3.dropWhile pyIsDigit)
      else none

/-- The regex alternative `[-+]?\d+` at the current position. -/
def numInt (s : List Char) : Option (List Char × List Char) :=
  let sg := splitSign s
  let ip := sg.2.takeWhile pyIsDigit
  if ip.isEmpty then none else some (sg.1 ++ ip, sg.2.dropWhile pyIsDigit)

/-- The full group `([-+]?\d*\.\d+|[-+]?\d+)` where the pattern ends right
after the group (the second capture): first alternative preferred. -/
def numAny (s : List Char) : Option (List Char × List Char) :=
  match numFrac s with
  | some r => some r
  | none => numInt s

/-- Continuation after the first capture: the literal `,True:` followed by the
second capture.  Returns the pair of captured groups. -/
def tryTail (g1 : List Char) (rest : List Char) : Option (List Char × List Char) :=
  if trueTok.isPrefixOf rest then
    match numAny (rest.drop trueTok.length) with
    | some (g2, _) => some (g1, g2)
    | none => none
  else none

/-- Attempt to match the whole pattern anchored at the start of `s`, i.e. the
literal `Pred:`, the first capture (fractional alternative first, falling back
to the integer alternative when the continuation fails), `,True:`, and the
second capture. -/
def matchAt (s : List Char) : Option (List Char × List Char) :=
  if predTok.isPrefixOf s then
    let r := s.drop predTok.length
    match numFrac r with
    | some (g1, r1) =>
        match tryTail g1 r1 with
        | some res => some res
        | none =>
            match numInt r with
            | some (g1i, r1i) => tryTail g1i r1i
            | none => none
    | none =>
        match numInt r with
        | some (g1i, r1i) => tryTail g1i r1i
        | none => none
  else none

/-- Model of `re.search`: try the pattern at each start position from the left
and return the captures of the leftmost match. -/
def reSearch : List Char → Option (List Char × List Char)
  | [] => none
  | c :: rest =>
      match matchAt (c :: rest) with
      | some r => some r
      | none => reSearch rest

/-- Model of Python `float()` on the token shapes that can occur here
(optional sign, digits, at most one dot — the capture groups never contain
exponents, spaces, underscores or `inf`/`nan`, and this model returns `none`,
i.e. `ValueError`, on anything outside that fragment).  Python accepts `1.`,
`.5`, `+3` and rejects `.` and the empty string. -/
def pyFloat (s : List Char) : Option ℚ :=
  let sg := splitSign s
  let sgn : ℚ := if sg.1 = ['-'] then -1 else 1
  let ip := sg.2.takeWhile pyIsDigit
  match sg.2.dropWhile pyIsDigit with
  | [] => if ip.isEmpty then none else some (sgn * (digitsToNat ip : ℚ))
  | c :: fp =>
      if c = '.' && fp.all pyIsDigit && !(ip.isEmpty && fp.isEmpty) then
        some (sgn * ((digitsToNat ip : ℚ) + (digitsToNat fp : ℚ) / (10 : ℚ) ^ fp.length))
      else none

/-- One parse step of `read_serial` on a decoded line, with exceptions made
explicit: `.ok none` is a non-matching line (silently skipped), `.ok (some _)`
a parsed sample, and `.error ()` would be an uncaught `ValueError` from
`float` (plotter.py lines 51-59). -/
def parseLineE (line : List Char) : Except Unit (Option (ℚ × ℚ)) :=
  match reSearch (pyStrip line) with
  | none => .ok none
  | some (g1, g2) =>
      match pyFloat g1, pyFloat g2 with
      | some v1, some v2 => .ok (some (v1, v2))
      | _, _ => .error ()

/-- Total view of the parse step (the error branch is proved unreachable in
`parser_total`). -/
def parseLine (line : List Char) : Option (ℚ × ℚ) :=
  match parseLineE line with
  | .ok r => r
  | .error _ => none

/-! ## The producer state and loop -/

/-- The mutable globals of plotter.py: the three data deques (lines 27-29)
and the sequence counter of `read_serial` (line 49). -/
structure PState where
  data_pred : List ℚ
  data_true : List ℚ
  data_x : List Nat
  counter : Nat
  deriving Repr, DecidableEq

/-- Initial state: empty deques, `counter = 0`. -/
def initState : PState := ⟨[], [], [], 0⟩

/-- `data_pred.append(pred_val)` — plotter.py line 62. -/
def appendPredAct (p : ℚ) (st : PState) : PState :=
  { st with data_pred := dequeAppend MAX_POINTS st.data_pred p }

/-- `data_true.append(true_val)` — plotter.py line 63. -/
def appendTrueAct (t : ℚ) (st : PState) : PState :=
  { st with data_true := dequeAppend MAX_POINTS st.data_true t }

/-- `data_x.append(counter)` — plotter.py line 64. -/
def appendXAct (st : PState) : PState :=
  { st with data_x := dequeAppend MAX_POINTS st.data_x st.counter }

/-- `counter += 1` — plotter.py line 65. -/
def incCounterAct (st : PState) : PState :=
  { st with counter := st.counter + 1 }

/-- One complete iteration of the `while running` body on one line: parse,
and on a match run the four mutation statements in program order. -/
def step (st : PState) (line : List Char) : PState :=
  match parseLine line with
  | some (p, t) => incCounterAct (appendXAct (appendTrueAct t (appendPredAct p st)))
  | none => st

/-- The state reached after executing only the first `k` of the four mutation
statements of one iteration (the producer thread can be preempted between any
two of them; `k = 4` is a complete iteration). -/
def iterPrefix (st : PState) (line : List Char) (k : Nat) : PState :=
  match parseLine line with
  | some (p, t) =>
      (([appendPredAct p, appendTrueAct t, appendXAct, incCounterAct].take k)).foldl
        (fun s f => f s) st
  | none => st

/-- The producer loop run over a finite list of decoded lines. -/
def runLines (st : PState) (lines : List (List Char)) : PState :=
  lines.foldl step st

/-- The three parallel deques represent whole samples exactly when they have
equal lengths. -/
def consistent (st : PState) : Prop :=
  st.data_pred.length = st.data_x.length ∧ st.data_true.length = st.data_x.length

instance (st : PState) : Decidable (consistent st) :=
  inferInstanceAs (Decidable (_ = _ ∧ _ = _))

/-! ## The `update` callback (consumer) -/

/-- `abs(data_pred[-1] - data_true[-1])` — plotter.py line 117; `none` models
the `IndexError` an empty deque would raise. -/
def currentError (st : PState) : Option ℚ :=
  match st.data_pred.getLast?, st.data_true.getLast? with
  | some p, some t => some |p - t|
  | _, _ => none

/-- What `set_data` is given for the y-series: either the live deque object
itself, or an independent copy taken at call time. -/
inductive PlotData
  | ref : PlotData
  | copy (l : List ℚ) : PlotData
  deriving Repr, DecidableEq

/-- The data the artist yields when it is finally drawn, as a function of the
state of the globals *at draw time*: a stored reference reads the live deque,
a stored copy is fixed. -/
def drawPred (st : PState) : PlotData → List ℚ
  | .ref => st.data_pred
  | .copy l => l

/-- `update` passes `data_pred` itself to `line_pred.set_data`
(plotter.py line 110): the live deque object, not a copy. -/
def linePredStored : PlotData := PlotData.ref

/-- The `update` callback (plotter.py lines 108-118): when `data_x` is
nonempty it re-points the artist at the live deque and recomputes the error
text; it never writes to the shared globals.  Returns the state of the
globals after the call, what the artist now holds, and the error value. -/
def update (st : PState) (stored : PlotData) : PState × PlotData × Option ℚ :=
  if st.data_x.isEmpty then (st, stored, none)
  else (st, linePredStored, currentError st)

/-! ## Specification-side description of the numeral schema

These predicates describe, following the words of the spec, the set of
strings the two capture groups range over: a signed decimal numeral, either
fractional (`[-+]?\d*\.\d+`) or integer (`[-+]?\d+`), where a digit is any
Unicode decimal digit (`pyIsDigit`), as Python's `\d` matches. -/

/-- An optional sign. -/
def IsSign (sgn : List Char) : Prop := sgn = [] ∨ sgn = ['+'] ∨ sgn = ['-']

/-- A fractional numeral: optional sign, digits, a dot, at least one digit. -/
def FracShape (g : List Char) : Prop :=
  ∃ sgn ip fp, IsSign sgn ∧ g = sgn ++ ip ++ '.' :: fp ∧
    (∀ c ∈ ip, pyIsDigit c = true) ∧ (∀ c ∈ fp, pyIsDigit c = true) ∧ fp ≠ []

/-- An integer numeral: optional sign and at least one digit. -/
def IntShape (g : List Char) : Prop :=
  ∃ sgn ip, IsSign sgn ∧ g = sgn ++ ip ∧ (∀ c ∈ ip, pyIsDigit c = true) ∧ ip ≠ []

/-- A signed decimal numeral, integer or fractional. -/
def isNumeral (g : List Char) : Prop := FracShape g ∨ IntShape g

/-- The samples retained by the window after processing `lines`: of all
successfully parsed `(predicted, actual)` pairs, numbered from 0 in parse
order, the last `MAX_POINTS`, as `(predicted, actual, sequence)` triples. -/
def retainedSamples (lines : List (List Char)) : List (ℚ × ℚ × ℕ) :=
  (((lines.filterMap parseLine).enum.map fun e => (e.2.1, e.2.2, e.1)).drop
    ((lines.filterMap parseLine).length - MAX_POINTS))

/-! ## Lifecycle model (main thread + reader thread)

`__main__` (plotter.py lines 123-135) starts `read_serial` on a daemon
thread, later clears `running` and joins it; `read_serial`'s `finally`
block also clears `running` when the thread function returns.  The model
interleaves the atomic actions of the two threads. -/

/-- The whole-process state: the shared globals, the `running` flag, whether
the reader thread function has returned (so that `join()` can return), and
the lines the serial port still has in store. -/
structure SysState where
  ps : PState
  running : Bool
  threadDone : Bool
  pending : List (List Char)
  deriving Repr, DecidableEq

/-- Atomic actions of the two threads:
* `read` — the reader thread runs one full loop iteration on the next line
  (possible only while `running` is still true and the thread has not
  exited, plotter.py lines 50-65);
* `stopRequest` — the main thread clears `running` (line 134);
* `threadExit` — the reader thread leaves the loop (flag observed false,
  or a `SerialException`), runs the `finally` block, which also clears
  `running` (lines 67-72), and returns, making `join()` (line 135) return. -/
inductive SysStep : SysState → SysState → Prop
  | read (s : SysState) (l : List Char) (rest : List (List Char)) :
      s.running = true → s.threadDone = false → s.pending = l :: rest →
      SysStep s ⟨step s.ps l, s.running, false, rest⟩
  | stopRequest (s : SysState) :
      SysStep s ⟨s.ps, false, s.threadDone, s.pending⟩
  | threadExit (s : SysState) :
      s.threadDone = false →
      SysStep s ⟨s.ps, false, true, s.pending⟩

/-! ## Transport cleanup model (`read_serial`'s try/except/finally)

The loop body raises `serial.SerialException` only from `ser.readline()`;
the `except` clause swallows it and the `finally` clause closes the handle
when — and only when — the name `ser` is bound and the handle is open. -/

/-- Outcome of one `ser.readline()` call: a decoded line, or a
`SerialException`. -/
inductive ReadEvent
  | line (l : List Char)
  | ioError
  deriving Repr

/-- The `while running` loop over the outcomes the transport will deliver:
processes lines until the events are exhausted (the flag went false or the
stream idles) or an I/O error aborts the loop.  Returns the final globals
and whether the loop was left by an exception. -/
def loopReads (st : PState) : List ReadEvent → PState × Bool
  | [] => (st, false)
  | .line l :: es => loopReads (step st l) es
  | .ioError :: _ => (st, true)

/-- Evaluating the name `ser`: a `NameError` (`.error ()`) when the name was
never bound, i.e. when `serial.Serial(...)` itself raised. -/
def lookupSer (serLocal : Option Bool) : Except Unit Bool :=
  match serLocal with
  | none => .error ()
  | some isOp => .ok isOp

/-- The `finally` block, `if 'ser' in locals() and ser.is_open: ser.close()`
(plotter.py lines 70-71), over the binding state of `ser` (`none` = unbound,
`some b` = bound to a handle with `is_open = b`).  Returns the final binding
or a `NameError`. -/
def finallyClause (serLocal : Option Bool) : Except Unit (Option Bool) :=
  if serLocal.isSome then
    match lookupSer serLocal with
    | .error e => .error e
    | .ok isOp => if isOp then .ok (some false) else .ok serLocal
  else .ok serLocal

/-- The whole of `read_serial` (plotter.py lines 45-72): open the port
(`openOk = false` models `serial.Serial` raising before `ser` is bound),
run the loop over the transport's events, then the `finally` block.
Returns the final `is_open` state of the binding of `ser` and the globals,
or the error the cleanup itself raised. -/
def readSerialRun (openOk : Bool) (events : List ReadEvent) :
    Except Unit (Option Bool × PState) :=
  let body : Option Bool × PState :=
    if openOk then (some true, (loopReads initState events).1)
    else (none, initState)
  match finallyClause body.1 with
  | .ok serFinal => .ok (serFinal, body.2)
  | .error e => .error e

/-! # Theorems -/

/-! ## The sliding window -/

lemma appendAll_concat (N : Nat) (xs : List α) (x : α) :
    appendAll N (xs ++ [x]) = dequeAppend N (appendAll N xs) x := by
  simp [appendAll, List.foldl_append]

/-- A deque with `maxlen = N` holds exactly the last `N` appended elements,
in append order. -/
lemma appendAll_eq_drop (N : Nat) (xs : List α) :
    appendAll N xs = xs.drop (xs.length - N) := by
  induction xs using List.reverseRecOn with
  | nil => simp [appendAll]
  | append_singleton xs x ih =>
      rw [appendAll_concat, ih, dequeAppend]
      rcases Nat.lt_or_ge xs.length N with h | h
      · have h1 : xs.length - N = 0 := by omega
        have h3 : (xs ++ [x]).length - N = 0 := by
          simp only [List.length_append, List.length_cons, List.length_nil]
          omega
        rw [h1, List.drop_zero, h3, List.drop_zero]
      · have hq : (xs.drop (xs.length - N)).length = N := by
          rw [List.length_drop]; omega
        rcases Nat.eq_zero_or_pos N with hN | hN
        · subst hN
          have e1 : xs.length - 0 = xs.length := by omega
          rw [e1, List.drop_length]
          have e2 : ([] ++ [x] : List α).length - 0 = 1 := rfl
          rw [e2]
          have e3 : (xs ++ [x]).length - 0 = (xs ++ [x]).length := by omega
          rw [e3, List.drop_length]
          rfl
        · have e1 : (xs.drop (xs.length - N) ++ [x]).length - N = 1 := by
            rw [List.length_append, hq]; simp
          have e2 : (xs ++ [x]).length - N = (xs.length - N) + 1 := by
            rw [List.length_append]; simp; omega
          rw [e1, e2]
          rw [List.drop_append_of_le_length (by omega : 1 ≤ (xs.drop (xs.length - N)).length)]
          rw [List.drop_append_of_le_length (by omega : xs.length - N + 1 ≤ xs.length)]
          rw [List.drop_drop]

/-- **C1.** The buffer never holds more than `N` elements; appending when
full evicts the oldest first, so after any sequence of appends the buffer
holds exactly the most recent `N` of them, in append order (after `N + k`
appends, all but the first `k`); concretely, with capacity 3, appending
elements with sequences 0, 1, 2, 3 leaves exactly 1, 2, 3 in that order. -/
theorem sliding_window_fifo :
    (∀ (N : ℕ) (xs : List (ℕ × ℚ × ℚ)), (appendAll N xs).length ≤ N) ∧
    (∀ (N k : ℕ) (xs : List (ℕ × ℚ × ℚ)), xs.length = N + k →
      appendAll N xs = xs.drop k) ∧
    appendAll 3 ([0, 1, 2, 3] : List ℕ) = [1, 2, 3] := by
  refine ⟨fun N xs => ?_, fun N k xs h => ?_, by decide⟩
  · rw [appendAll_eq_drop, List.length_drop]; omega
  · rw [appendAll_eq_drop, h]
    congr 1
    omega

/-- Witness for `sliding_window_fifo` at capacity 3 and four appends. -/
theorem sliding_window_fifo_witness :
    appendAll 3 [((0 : ℕ), (0 : ℚ), (0 : ℚ)), (1, 0, 0), (2, 0, 0), (3, 0, 0)] =
      [((1 : ℕ), (0 : ℚ), (0 : ℚ)), (2, 0, 0), (3, 0, 0)] :=
  sliding_window_fifo.2.1 3 1 _ rfl

/-! ## The producer loop -/

lemma runLines_concat (st : PState) (lines : List (List Char)) (l : List Char) :
    runLines st (lines ++ [l]) = step (runLines st lines) l := by
  simp [runLines, List.foldl_append]

lemma step_some {st : PState} {line : List Char} {p t : ℚ}
    (h : parseLine line = some (p, t)) :
    step st line =
      ⟨dequeAppend MAX_POINTS st.data_pred p,
       dequeAppend MAX_POINTS st.data_true t,
       dequeAppend MAX_POINTS st.data_x st.counter,
       st.counter + 1⟩ := by
  simp [step, h, incCounterAct, appendXAct, appendTrueAct, appendPredAct]

lemma step_none {st : PState} {line : List Char} (h : parseLine line = none) :
    step st line = st := by
  simp [step, h]

/-- Closed form of the producer loop: the three deques hold the last
`MAX_POINTS` of, respectively, the parsed predicted values, the parsed
actual values, and the sequence numbers `0, 1, 2, …`; the counter equals
the number of successfully parsed lines. -/
lemma runLines_spec (lines : List (List Char)) :
    runLines initState lines =
      ⟨appendAll MAX_POINTS ((lines.filterMap parseLine).map Prod.fst),
       appendAll MAX_POINTS ((lines.filterMap parseLine).map Prod.snd),
       appendAll MAX_POINTS (List.range (lines.filterMap parseLine).length),
       (lines.filterMap parseLine).length⟩ := by
  induction lines using List.reverseRecOn with
  | nil => rfl
  | append_singleton ls l ih =>
      rw [runLines_concat, ih]
      cases h : parseLine l with
      | none => simp [step_none h, List.filterMap_append, h]
      | some pt =>
          obtain ⟨p, t⟩ := pt
          rw [step_some h]
          simp [List.filterMap_append, h, appendAll_concat, List.range_succ]

/-- **C3.** Sequence indices are assigned only to successfully parsed
samples: the counter equals the number of parsed samples, the retained
sequence numbers are a suffix of `0, 1, 2, …`, a malformed line changes
nothing and a parsed line advances the counter by exactly 1. -/
theorem sequence_assignment (lines : List (List Char)) :
    (runLines initState lines).counter = (lines.filterMap parseLine).length ∧
    (runLines initState lines).data_x =
      (List.range (runLines initState lines).counter).drop
        ((runLines initState lines).counter - MAX_POINTS) ∧
    (∀ l, parseLine l = none →
      runLines initState (lines ++ [l]) = runLines initState lines) ∧
    (∀ l (p t : ℚ), parseLine l = some (p, t) →
      (runLines initState (lines ++ [l])).counter =
        (runLines initState lines).counter + 1) := by
  refine ⟨?_, ?_, ?_, ?_⟩
  · rw [runLines_spec]
  · rw [runLines_spec]
    simp [appendAll_eq_drop]
  · intro l h
    rw [runLines_concat, step_none h]
  · intro l p t h
    rw [runLines_concat, step_some h]

/-- Evaluation helper: a line whose regex search and float conversions have
known outcomes parses to the corresponding pair. -/
lemma parseLine_of_search {line g1 g2 : List Char} {v1 v2 : ℚ}
    (h : reSearch (pyStrip line) = some (g1, g2))
    (h1 : pyFloat g1 = some v1) (h2 : pyFloat g2 = some v2) :
    parseLine line = some (v1, v2) := by
  simp [parseLine, parseLineE, h, h1, h2]

lemma pyFloat_three : pyFloat ['3'] = some 3 := by
  rw [show pyFloat ['3'] = some ((1 : ℚ) * ((3 : ℕ) : ℚ)) from rfl]
  norm_num

lemma pyFloat_four : pyFloat ['4'] = some 4 := by
  rw [show pyFloat ['4'] = some ((1 : ℚ) * ((4 : ℕ) : ℚ)) from rfl]
  norm_num

/-- Witness for `sequence_assignment`: a malformed line consumes nothing,
a parsed line consumes exactly one index. -/
theorem sequence_assignment_witness :
    runLines initState ([] ++ ["garbage".toList]) = runLines initState [] ∧
    (runLines initState (["Pred:1,True:2".toList] ++ ["Pred:3,True:4".toList])).counter =
      (runLines initState ["Pred:1,True:2".toList]).counter + 1 :=
  ⟨(sequence_assignment []).2.2.1 _ (by decide),
   (sequence_assignment ["Pred:1,True:2".toList]).2.2.2 _ 3 4
     (parseLine_of_search (by decide) pyFloat_three pyFloat_four)⟩

/-- **C10.** The code stores each sample as entries of three parallel deques;
between complete loop iterations the three deques have equal length and for
every index the three entries at that index jointly form the retained sample
at that index. -/
theorem parallel_deques_invariant (lines : List (List Char)) :
    (runLines initState lines).data_pred.length =
      (runLines initState lines).data_x.length ∧
    (runLines initState lines).data_true.length =
      (runLines initState lines).data_x.length ∧
    (runLines initState lines).data_pred = (retainedSamples lines).map (fun s => s.1) ∧
    (runLines initState lines).data_true =
      (retainedSamples lines).map (fun s => s.2.1) ∧
    (runLines initState lines).data_x = (retainedSamples lines).map (fun s => s.2.2) := by
  rw [runLines_spec]
  have hsnd : ((lines.filterMap parseLine).enum.map
      (fun e => (e.2.1, e.2.2, e.1))).map (fun s => (s.1 : ℚ)) =
      (lines.filterMap parseLine).map Prod.fst := by
    rw [List.map_map]
    have h : ((fun s : ℚ × ℚ × ℕ => s.1) ∘ fun e : ℕ × (ℚ × ℚ) => (e.2.1, e.2.2, e.1)) =
        (Prod.fst ∘ Prod.snd) := rfl
    rw [h, ← List.map_map, List.enum_map_snd]
  have htrue : ((lines.filterMap parseLine).enum.map
      (fun e => (e.2.1, e.2.2, e.1))).map (fun s => (s.2.1 : ℚ)) =
      (lines.filterMap parseLine).map Prod.snd := by
    rw [List.map_map]
    have h : ((fun s : ℚ × ℚ × ℕ => s.2.1) ∘ fun e : ℕ × (ℚ × ℚ) => (e.2.1, e.2.2, e.1)) =
        (Prod.snd ∘ Prod.snd) := rfl
    rw [h, ← List.map_map, List.enum_map_snd]
  have hx : ((lines.filterMap parseLine).enum.map
      (fun e => (e.2.1, e.2.2, e.1))).map (fun s => (s.2.2 : ℕ)) =
      List.range (lines.filterMap parseLine).length := by
    rw [List.map_map]
    have h : ((fun s : ℚ × ℚ × ℕ => s.2.2) ∘ fun e : ℕ × (ℚ × ℚ) => (e.2.1, e.2.2, e.1)) =
        Prod.fst := rfl
    rw [h, List.enum_map_fst]
  refine ⟨?_, ?_, ?_, ?_, ?_⟩ <;>
    simp only [retainedSamples, appendAll_eq_drop, List.map_drop, hsnd, htrue, hx,
      List.length_drop, List.length_map, List.length_range]

/-! ## Concurrent visibility: the three appends of one iteration are not atomic -/

lemma dequeAppend_length (N : Nat) (q : List α) (x : α) :
    (dequeAppend N q x).length = min (q.length + 1) N := by
  rw [dequeAppend, List.length_drop]
  simp only [List.length_append, List.length_cons, List.length_nil]
  omega

/-- **C4 (counterexample).** The claim states that a snapshot taken
concurrently with an append never shows a partially constructed sample.  The
producer appends to the three deques with three separate statements and no
lock, so it can be preempted between them: after `data_pred.append` (line 62)
but before `data_x.append` (line 64) — micro-step prefix `k = 1` — the
globals hold a predicted value with no matching sequence entry. -/
theorem snapshot_torn_read_cex :
    consistent initState ∧
    ¬ consistent (iterPrefix initState ("Pred:1,True:2".toList) 1) ∧
    ¬ (∀ (st : PState) (line : List Char) (k : ℕ),
        consistent st → consistent (iterPrefix st line k)) := by
  refine ⟨by decide, by decide, fun hall => ?_⟩
  exact (by decide : ¬ consistent (iterPrefix initState ("Pred:1,True:2".toList) 1))
    (hall initState ("Pred:1,True:2".toList) 1 (by decide))

/-- **C4 (amended).** A snapshot taken between complete loop iterations never
contains a partially appended sample and never misses a completed one: a full
iteration preserves the equal-length (whole-samples) invariant, every state
reached by complete iterations satisfies it, and the four micro-operations
compose to exactly one complete iteration. -/
theorem snapshot_whole_iterations :
    (∀ (st : PState) (line : List Char), consistent st → consistent (step st line)) ∧
    (∀ lines : List (List Char), consistent (runLines initState lines)) ∧
    (∀ (st : PState) (line : List Char), iterPrefix st line 4 = step st line) := by
  refine ⟨?_, ?_, ?_⟩
  · intro st line h
    cases hp : parseLine line with
    | none => rwa [step_none hp]
    | some pt =>
        obtain ⟨p, t⟩ := pt
        rw [step_some hp]
        obtain ⟨h1, h2⟩ := h
        constructor <;> simp [dequeAppend_length, h1, h2]
  · intro lines
    rw [runLines_spec]
    constructor <;>
      simp [appendAll_eq_drop, List.length_drop, List.length_map, List.length_range]
  · intro st line
    cases hp : parseLine line with
    | none => simp [iterPrefix, step, hp]
    | some pt =>
        obtain ⟨p, t⟩ := pt
        simp [iterPrefix, step, hp]

/-- Witness for `snapshot_whole_iterations`: a full iteration from the
initial state keeps the deques aligned. -/
theorem snapshot_whole_iterations_witness :
    consistent (step initState ("Pred:1,True:2".toList)) :=
  snapshot_whole_iterations.1 initState ("Pred:1,True:2".toList) (by decide)

/-! ## Lifecycle: shutdown -/

/-- **C5.** Once the shutdown request has completed — the flag is cleared and
the reader thread has been joined (`threadDone`) — no step of the system ever
changes the buffer again: every state reachable from a stopped state carries
the same globals, so any two snapshots taken after `stop()` returned are
identical. -/
theorem stop_freezes_buffer (s t u : SysState)
    (_hr : s.running = false) (hd : s.threadDone = true)
    (h1 : Relation.ReflTransGen SysStep s t)
    (h2 : Relation.ReflTransGen SysStep t u) :
    t.ps = s.ps ∧ u.ps = s.ps := by
  have key : ∀ a b : SysState, a.threadDone = true →
      Relation.ReflTransGen SysStep a b → b.ps = a.ps ∧ b.threadDone = true := by
    intro a b hdone hab
    induction hab with
    | refl => exact ⟨rfl, hdone⟩
    | tail hab hstep ih =>
        obtain ⟨hps, hdn⟩ := ih
        cases hstep with
        | read l rest hrun hnd hpend => rw [hdn] at hnd; cases hnd
        | stopRequest => exact ⟨hps, hdn⟩
        | threadExit hnd => rw [hdn] at hnd; cases hnd
  obtain ⟨hts, htd⟩ := key s t hd h1
  obtain ⟨hut, _⟩ := key t u htd h2
  exact ⟨hts, hut.trans hts⟩

/-- Witness for `stop_freezes_buffer` at a concrete stopped state. -/
theorem stop_freezes_buffer_witness :
    (SysState.mk initState false true []).ps = (SysState.mk initState false true []).ps ∧
    (SysState.mk initState false true []).ps = (SysState.mk initState false true []).ps :=
  stop_freezes_buffer _ _ _ rfl rfl Relation.ReflTransGen.refl Relation.ReflTransGen.refl

/-! ## Transport cleanup -/

/-- **C6.** On every exit of the ingestion loop — events exhausted
(cancellation / idle stream) or a transport failure — `read_serial` returns
without an error from the cleanup itself, and the final state of the `ser`
binding is closed (`some false`) whenever the port was opened, and still
unbound (`none`, the `locals()` guard having skipped the close without a
`NameError`) when opening itself failed. -/
theorem transport_released (openOk : Bool) (events : List ReadEvent) :
    readSerialRun openOk events =
      .ok ((if openOk then some false else none),
           (if openOk then (loopReads initState events).1 else initState)) ∧
    (if openOk then some false else none : Option Bool) ≠ some true := by
  cases openOk <;> simp [readSerialRun, finallyClause, lookupSer]

/-! ## Snapshot independence -/

/-- **C7 (counterexample).** The claim states the snapshot handed to the
renderer is an independent copy, unaffected by later appends.  `update`
passes the live `data_pred` deque to `set_data` (line 110), so the data the
stored object draws changes when the producer appends afterwards: initially
it draws `[]`, after one append it draws one element. -/
theorem snapshot_not_independent_cex :
    drawPred initState linePredStored = [] ∧
    drawPred (step initState ("Pred:1,True:2".toList)) linePredStored ≠ [] ∧
    ¬ (∀ (st : PState) (line : List Char),
        drawPred (step st line) linePredStored = drawPred st linePredStored) := by
  refine ⟨rfl, by decide, fun hall => ?_⟩
  exact (by decide :
      drawPred (step initState ("Pred:1,True:2".toList)) linePredStored ≠ [])
    ((hall initState ("Pred:1,True:2".toList)).trans rfl)

/-- **C7 (amended).** What `update` stores aliases the live buffer: the
stored reference draws exactly the current `data_pred` (the retained window,
oldest first), whereas a stored independent copy would be unaffected by a
later append; `update` itself never mutates the shared globals; and when
`data_x` is nonempty `update` re-points the artist at the live deque and
computes the error eagerly from the state at call time. -/
theorem snapshot_alias_behavior :
    (∀ st : PState, drawPred st linePredStored = st.data_pred) ∧
    (∀ (st : PState) (line : List Char) (l : List ℚ),
        drawPred (step st line) (PlotData.copy l) = drawPred st (PlotData.copy l)) ∧
    (∀ (st : PState) (stored : PlotData), (update st stored).1 = st) ∧
    (∀ (st : PState) (stored : PlotData), st.data_x.isEmpty = false →
        (update st stored).2.1 = linePredStored ∧
        (update st stored).2.2 = currentError st) := by
  refine ⟨fun st => rfl, fun st line l => rfl, ?_, ?_⟩
  · intro st stored
    unfold update
    split <;> rfl
  · intro st stored h
    simp [update, h]

/-- Witness for `snapshot_alias_behavior` after one parsed line. -/
theorem snapshot_alias_behavior_witness :
    (update (step initState ("Pred:1,True:2".toList)) PlotData.ref).2.1 = linePredStored ∧
    (update (step initState ("Pred:1,True:2".toList)) PlotData.ref).2.2 =
      currentError (step initState ("Pred:1,True:2".toList)) :=
  snapshot_alias_behavior.2.2.2 _ PlotData.ref (by decide)

/-! ## End-to-end example -/

lemma pyFloat_half : pyFloat ['0', '.', '5', '0'] = some (1 / 2) := by
  rw [show pyFloat ['0', '.', '5', '0'] =
    some ((1 : ℚ) * (((0 : ℕ) : ℚ) + ((50 : ℕ) : ℚ) / (10 : ℚ) ^ (2 : ℕ))) from rfl]
  norm_num

lemma pyFloat_52 : pyFloat ['0', '.', '5', '2'] = some (13 / 25) := by
  rw [show pyFloat ['0', '.', '5', '2'] =
    some ((1 : ℚ) * (((0 : ℕ) : ℚ) + ((52 : ℕ) : ℚ) / (10 : ℚ) ^ (2 : ℕ))) from rfl]
  norm_num

lemma pyFloat_neg10 : pyFloat ['-', '0', '.', '1', '0'] = some (-1 / 10) := by
  rw [show pyFloat ['-', '0', '.', '1', '0'] =
    some ((-1 : ℚ) * (((0 : ℕ) : ℚ) + ((10 : ℕ) : ℚ) / (10 : ℚ) ^ (2 : ℕ))) from rfl]
  norm_num

lemma pyFloat_neg08 : pyFloat ['-', '0', '.', '0', '8'] = some (-2 / 25) := by
  rw [show pyFloat ['-', '0', '.', '0', '8'] =
    some ((-1 : ℚ) * (((0 : ℕ) : ℚ) + ((8 : ℕ) : ℚ) / (10 : ℚ) ^ (2 : ℕ))) from rfl]
  norm_num

/-- **C9.** Feeding the three literal lines `Pred:0.50,True:0.52`,
`garbage`, `Pred:-0.10,True:-0.08` produces exactly the two samples
`(sequence 0, 0.50, 0.52)` and `(sequence 1, -0.10, -0.08)`, and the
absolute error computed from the most recent sample is then `0.02`. -/
theorem end_to_end_example :
    runLines initState
        ["Pred:0.50,True:0.52".toList, "garbage".toList,
         "Pred:-0.10,True:-0.08".toList] =
      ⟨[1 / 2, -1 / 10], [13 / 25, -2 / 25], [0, 1], 2⟩ ∧
    currentError (runLines initState
        ["Pred:0.50,True:0.52".toList, "garbage".toList,
         "Pred:-0.10,True:-0.08".toList]) = some (2 / 100) := by
  have p1 : parseLine "Pred:0.50,True:0.52".toList = some (1 / 2, 13 / 25) :=
    parseLine_of_search (by decide) pyFloat_half pyFloat_52
  have p2 : parseLine "garbage".toList = none := by decide
  have p3 : parseLine "Pred:-0.10,True:-0.08".toList = some (-1 / 10, -2 / 25) :=
    parseLine_of_search (by decide) pyFloat_neg10 pyFloat_neg08
  have hrun : runLines initState
      ["Pred:0.50,True:0.52".toList, "garbage".toList,
       "Pred:-0.10,True:-0.08".toList] =
      ⟨[1 / 2, -1 / 10], [13 / 25, -2 / 25], [0, 1], 2⟩ := by
    show step (step (step initState "Pred:0.50,True:0.52".toList)
      "garbage".toList) "Pred:-0.10,True:-0.08".toList = _
    rw [step_some p1, step_none p2, step_some p3]
    simp [dequeAppend, MAX_POINTS, initState]
  refine ⟨hrun, ?_⟩
  rw [hrun]
  show (match ([1 / 2, -1 / 10] : List ℚ).getLast?,
      ([13 / 25, -2 / 25] : List ℚ).getLast? with
    | some p, some t => some |p - t|
    | _, _ => none) = some (2 / 100)
  simp [List.getLast?]
  rw [show (-1 / 10 : ℚ) - (-2 / 25) = -(1 / 50) by norm_num, abs_neg,
    abs_of_nonneg (by norm_num : (0 : ℚ) ≤ 1 / 50)]
  norm_num

/-! ## Parser soundness -/

lemma splitSign_sound (s : List Char) :
    s = (splitSign s).1 ++ (splitSign s).2 ∧ IsSign (splitSign s).1 := by
  cases s with
  | nil => exact ⟨rfl, Or.inl rfl⟩
  | cons c t =>
      by_cases h1 : c = '+'
      · subst h1; simp [splitSign, IsSign]
      · by_cases h2 : c = '-'
        · subst h2; simp [splitSign, IsSign]
        · simp [splitSign, h1, h2, IsSign]

lemma takeWhile_dropWhile_append (p : Char → Bool) (ds r : List Char)
    (h1 : ∀ c ∈ ds, p c = true)
    (h2 : ∀ c, r.head? = some c → p c = false) :
    (ds ++ r).takeWhile p = ds ∧ (ds ++ r).dropWhile p = r := by
  induction ds with
  | nil =>
      rw [List.nil_append]
      cases r with
      | nil => simp
      | cons c t =>
          have hc := h2 c rfl
          simp [List.takeWhile_cons, List.dropWhile_cons, hc]
  | cons d ds ih =>
      have hd := h1 d (List.mem_cons_self d ds)
      have ih' := ih fun c hc => h1 c (List.mem_cons_of_mem d hc)
      simp [List.takeWhile_cons, List.dropWhile_cons, hd, ih'.1, ih'.2]

lemma isEmpty_false_of_ne {l : List Char} (h : l ≠ []) : l.isEmpty = false := by
  cases l with
  | nil => exact absurd rfl h
  | cons a t => rfl

lemma numFrac_sound {s g r : List Char} (h : numFrac s = some (g, r)) :
    s = g ++ r ∧ FracShape g := by
  simp only [numFrac] at h
  obtain ⟨e1, hsgn⟩ := splitSign_sound s
  set sgn := (splitSign s).1 with hA
  set u := (splitSign s).2 with hB
  split at h
  · exact absurd h (by simp)
  · rename_i c s3 hdrop
    split at h
    · rename_i hdot
      split at h
      · exact absurd h (by simp)
      · rename_i hfpne
        rw [Option.some.injEq, Prod.mk.injEq] at h
        obtain ⟨hg, hr⟩ := h
        subst hdot
        have hu : u = u.takeWhile pyIsDigit ++ '.' :: s3 := by
          conv_lhs => rw [← List.takeWhile_append_dropWhile (p := pyIsDigit) (l := u)]
          rw [hdrop]
        have hs3 : s3 = s3.takeWhile pyIsDigit ++ s3.dropWhile pyIsDigit :=
          (List.takeWhile_append_dropWhile pyIsDigit s3).symm
        constructor
        · rw [← hg, ← hr, e1]
          conv_lhs => rw [hu, hs3]
          simp [List.append_assoc]
        · exact ⟨sgn, u.takeWhile pyIsDigit, s3.takeWhile pyIsDigit, hsgn, hg.symm,
            fun c hc => List.mem_takeWhile_imp hc,
            fun c hc => List.mem_takeWhile_imp hc,
            fun hfp => hfpne (by rw [hfp]; rfl)⟩
    · exact absurd h (by simp)

lemma numInt_sound {s g r : List Char} (h : numInt s = some (g, r)) :
    s = g ++ r ∧ IntShape g := by
  simp only [numInt] at h
  obtain ⟨e1, hsgn⟩ := splitSign_sound s
  set sgn := (splitSign s).1 with hA
  set u := (splitSign s).2 with hB
  split at h
  · exact absurd h (by simp)
  · rename_i hipne
    rw [Option.some.injEq, Prod.mk.injEq] at h
    obtain ⟨hg, hr⟩ := h
    constructor
    · rw [← hg, ← hr, e1]
      conv_lhs => rw [← List.takeWhile_append_dropWhile (p := pyIsDigit) (l := u)]
      simp [List.append_assoc]
    · exact ⟨sgn, u.takeWhile pyIsDigit, hsgn, hg.symm,
        fun c hc => List.mem_takeWhile_imp hc,
        fun hip => hipne (by rw [hip]; rfl)⟩

lemma numAny_sound {s g r : List Char} (h : numAny s = some (g, r)) :
    s = g ++ r ∧ isNumeral g := by
  simp only [numAny] at h
  split at h
  · rename_i res hfrac
    rw [Option.some.injEq] at h
    subst h
    obtain ⟨hsplit, hshape⟩ := numFrac_sound hfrac
    exact ⟨hsplit, Or.inl hshape⟩
  · rename_i hfrac
    obtain ⟨hsplit, hshape⟩ := numInt_sound h
    exact ⟨hsplit, Or.inr hshape⟩

lemma tryTail_sound {ga gx g2 rest : List Char}
    (h : tryTail ga rest = some (gx, g2)) :
    gx = ga ∧ ∃ post, rest = trueTok ++ g2 ++ post ∧ isNumeral g2 := by
  simp only [tryTail] at h
  split at h
  · rename_i hpre
    split at h
    · rename_i g2' r2 hany
      rw [Option.some.injEq, Prod.mk.injEq] at h
      obtain ⟨h1, h2⟩ := h
      subst h1
      subst h2
      obtain ⟨hsplit, hnum⟩ := numAny_sound hany
      obtain ⟨t, ht⟩ := List.isPrefixOf_iff_prefix.mp hpre
      have hteq : t = g2' ++ r2 := by
        rw [← hsplit, ← ht, List.drop_left]
      refine ⟨rfl, r2, ?_, hnum⟩
      rw [← ht, hteq]
      simp [List.append_assoc]
    · exact absurd h (by simp)
  · exact absurd h (by simp)

lemma matchAt_sound {s g1 g2 : List Char} (h : matchAt s = some (g1, g2)) :
    ∃ post, s = predTok ++ g1 ++ trueTok ++ g2 ++ post ∧ isNumeral g1 ∧ isNumeral g2 := by
  simp only [matchAt] at h
  split at h
  · rename_i hpre
    obtain ⟨t, ht⟩ := List.isPrefixOf_iff_prefix.mp hpre
    have hdrop : s.drop predTok.length = t := by rw [← ht, List.drop_left]
    rw [hdrop] at h
    have assemble : ∀ {ga r1 : List Char}, t = ga ++ r1 → isNumeral ga →
        tryTail ga r1 = some (g1, g2) →
        ∃ post, s = predTok ++ g1 ++ trueTok ++ g2 ++ post ∧
          isNumeral g1 ∧ isNumeral g2 := by
      intro ga r1 hsplit hnum htail
      obtain ⟨hgx, post, hrest, hnum2⟩ := tryTail_sound htail
      subst hgx
      refine ⟨post, ?_, hnum, hnum2⟩
      rw [← ht, hsplit, hrest]
      simp [List.append_assoc]
    split at h
    · rename_i gf r1 hfrac
      split at h
      · rename_i res htt
        rw [Option.some.injEq] at h
        subst h
        exact assemble (numFrac_sound hfrac).1 (Or.inl (numFrac_sound hfrac).2) htt
      · rename_i httn
        split at h
        · rename_i gi r1i hint
          exact assemble (numInt_sound hint).1 (Or.inr (numInt_sound hint).2) h
        · exact absurd h (by simp)
    · rename_i hfracn
      split at h
      · rename_i gi r1i hint
        exact assemble (numInt_sound hint).1 (Or.inr (numInt_sound hint).2) h
      · exact absurd h (by simp)
  · exact absurd h (by simp)

/-! ## Parser completeness -/

lemma splitSign_on {sgn : List Char} (u : List Char) (hs : IsSign sgn)
    (hu : ∀ c, u.head? = some c → c = '.' ∨ pyIsDigit c = true) :
    splitSign (sgn ++ u) = (sgn, u) := by
  rcases hs with h | h | h
  · subst h
    rw [List.nil_append]
    cases u with
    | nil => rfl
    | cons c t =>
        rcases hu c rfl with hc | hc
        · subst hc; rfl
        · have h1 : c ≠ '+' := fun e => by rw [e] at hc; exact absurd hc (by decide)
          have h2 : c ≠ '-' := fun e => by rw [e] at hc; exact absurd hc (by decide)
          simp [splitSign, h1, h2]
  · subst h; rfl
  · subst h; rfl

lemma takeWhile_cons_digit {d : Char} (t : List Char) (hd : pyIsDigit d = true) :
    ((d :: t).takeWhile pyIsDigit).isEmpty = false := by
  simp [List.takeWhile_cons, hd]

lemma head_frac_tail {ip fp : List Char} (hip : ∀ c ∈ ip, pyIsDigit c = true) :
    ∀ c, (ip ++ '.' :: fp).head? = some c → c = '.' ∨ pyIsDigit c = true := by
  intro c hc
  cases ip with
  | nil =>
      rw [List.nil_append] at hc
      simp only [List.head?_cons, Option.some.injEq] at hc
      exact Or.inl hc.symm
  | cons d ds =>
      rw [List.cons_append] at hc
      simp only [List.head?_cons, Option.some.injEq] at hc
      exact Or.inr (hc ▸ hip d (List.mem_cons_self d ds))

lemma head_int_tail {ip tail : List Char} (hip : ∀ c ∈ ip, pyIsDigit c = true)
    (hne : ip ≠ []) :
    ∀ c, (ip ++ tail).head? = some c → c = '.' ∨ pyIsDigit c = true := by
  intro c hc
  cases ip with
  | nil => exact absurd rfl hne
  | cons d ds =>
      rw [List.cons_append] at hc
      simp only [List.head?_cons, Option.some.injEq] at hc
      exact Or.inr (hc ▸ hip d (List.mem_cons_self d ds))

lemma numFrac_exact {sgn ip fp tail : List Char} (hs : IsSign sgn)
    (hip : ∀ c ∈ ip, pyIsDigit c = true) (hfp : ∀ c ∈ fp, pyIsDigit c = true) (hne : fp ≠ [])
    (ht : ∀ c, tail.head? = some c → pyIsDigit c = false) :
    numFrac (sgn ++ (ip ++ '.' :: (fp ++ tail))) = some (sgn ++ ip ++ '.' :: fp, tail) := by
  have hu : ∀ c, (ip ++ '.' :: (fp ++ tail)).head? = some c → c = '.' ∨ pyIsDigit c = true :=
    head_frac_tail hip
  have hsp := splitSign_on (ip ++ '.' :: (fp ++ tail)) hs hu
  have h1 := takeWhile_dropWhile_append pyIsDigit ip ('.' :: (fp ++ tail)) hip
    (by intro c hc; simp only [List.head?_cons, Option.some.injEq] at hc; rw [← hc]; decide)
  have h2 := takeWhile_dropWhile_append pyIsDigit fp tail hfp ht
  have hemp : (fp ++ tail).takeWhile pyIsDigit ≠ [] := by
    rw [h2.1]; exact hne
  simp only [numFrac, hsp, h1.1, h1.2, h2.1, h2.2]
  simp [isEmpty_false_of_ne hemp, h2.1, h2.2]
  exact hne

lemma numFrac_int_none {sgn ip tail : List Char} (hs : IsSign sgn)
    (hip : ∀ c ∈ ip, pyIsDigit c = true) (hne : ip ≠ [])
    (ht : ∀ c, tail.head? = some c → pyIsDigit c = false ∧ c ≠ '.') :
    numFrac (sgn ++ (ip ++ tail)) = none := by
  have hsp := splitSign_on (ip ++ tail) hs (head_int_tail hip hne)
  have h1 := takeWhile_dropWhile_append pyIsDigit ip tail hip
    (fun c hc => (ht c hc).1)
  simp only [numFrac, hsp, h1.1, h1.2]
  cases tail with
  | nil => rfl
  | cons c t =>
      have hc := ht c rfl
      simp [hc.2]

lemma numInt_exact {sgn ip tail : List Char} (hs : IsSign sgn)
    (hip : ∀ c ∈ ip, pyIsDigit c = true) (hne : ip ≠ [])
    (ht : ∀ c, tail.head? = some c → pyIsDigit c = false) :
    numInt (sgn ++ (ip ++ tail)) = some (sgn ++ ip, tail) := by
  have hsp := splitSign_on (ip ++ tail) hs (head_int_tail hip hne)
  have h1 := takeWhile_dropWhile_append pyIsDigit ip tail hip ht
  simp only [numInt, hsp, h1.1, h1.2]
  simp [isEmpty_false_of_ne hne]

lemma numAny_isSome {g : List Char} (tail : List Char) (hg : isNumeral g) :
    (numAny (g ++ tail)).isSome = true := by
  rcases hg with ⟨sgn, ip, fp, hs, rfl, hip, hfp, hne⟩ | ⟨sgn, ip, hs, rfl, hip, hne⟩
  · have he : (sgn ++ ip ++ '.' :: fp) ++ tail = sgn ++ (ip ++ '.' :: (fp ++ tail)) := by
      simp [List.append_assoc]
    rw [he]
    have hsp := splitSign_on (ip ++ '.' :: (fp ++ tail)) hs (head_frac_tail hip)
    have h1 := takeWhile_dropWhile_append pyIsDigit ip ('.' :: (fp ++ tail)) hip
      (by intro c hc; simp only [List.head?_cons, Option.some.injEq] at hc; rw [← hc]; decide)
    obtain ⟨d, fp', rfl⟩ := List.exists_cons_of_ne_nil hne
    have hd : pyIsDigit d = true := hfp d (List.mem_cons_self d fp')
    have hemp : (((d :: fp') ++ tail).takeWhile pyIsDigit).isEmpty = false := by
      rw [List.cons_append]
      exact takeWhile_cons_digit _ hd
    simp only [numAny, numFrac, hsp, h1.1, h1.2]
    simp [hemp, hd]
  · have he : (sgn ++ ip) ++ tail = sgn ++ (ip ++ tail) := by
      simp [List.append_assoc]
    rw [he]
    cases hf : numFrac (sgn ++ (ip ++ tail)) with
    | some r => simp [numAny, hf]
    | none =>
        have hsp := splitSign_on (ip ++ tail) hs (head_int_tail hip hne)
        obtain ⟨d, ip', rfl⟩ := List.exists_cons_of_ne_nil hne
        have hd : pyIsDigit d = true := hip d (List.mem_cons_self d ip')
        have hemp : (((d :: ip') ++ tail).takeWhile pyIsDigit).isEmpty = false := by
          rw [List.cons_append]
          exact takeWhile_cons_digit _ hd
        simp only [numAny, hf, numInt, hsp]
        simp [hemp, hd]

lemma comma_head_not_digit {X : List Char} :
    ∀ c, (trueTok ++ X).head? = some c → pyIsDigit c = false ∧ c ≠ '.' := by
  intro c hc
  simp only [trueTok, List.cons_append, List.head?_cons, Option.some.injEq] at hc
  rw [← hc]
  exact ⟨by decide, by decide⟩

lemma matchAt_complete {g1 g2 post : List Char} (h1 : isNumeral g1) (h2 : isNumeral g2) :
    ∃ res, matchAt (predTok ++ g1 ++ trueTok ++ g2 ++ post) = some res := by
  have hshape : predTok ++ g1 ++ trueTok ++ g2 ++ post =
      predTok ++ (g1 ++ (trueTok ++ (g2 ++ post))) := by
    simp [List.append_assoc]
  rw [hshape]
  have hpre : predTok.isPrefixOf (predTok ++ (g1 ++ (trueTok ++ (g2 ++ post)))) = true :=
    List.isPrefixOf_iff_prefix.mpr (List.prefix_append _ _)
  have hdrop : (predTok ++ (g1 ++ (trueTok ++ (g2 ++ post)))).drop predTok.length =
      g1 ++ (trueTok ++ (g2 ++ post)) := List.drop_left _ _
  have htt : ∃ res, tryTail g1 (trueTok ++ (g2 ++ post)) = some res := by
    have hp6 : trueTok.isPrefixOf (trueTok ++ (g2 ++ post)) = true :=
      List.isPrefixOf_iff_prefix.mpr (List.prefix_append _ _)
    have hd6 : (trueTok ++ (g2 ++ post)).drop trueTok.length = g2 ++ post :=
      List.drop_left _ _
    obtain ⟨⟨ra, rb⟩, hr2⟩ := Option.isSome_iff_exists.mp (numAny_isSome post h2)
    exact ⟨(g1, ra), by simp [tryTail, hp6, hd6, hr2]⟩
  obtain ⟨res, hres⟩ := htt
  rcases h1 with hf | hi
  · obtain ⟨sgn, ip, fp, hs, hg1, hip, hfp, hne⟩ := hf
    have hfrac : numFrac (g1 ++ (trueTok ++ (g2 ++ post))) =
        some (g1, trueTok ++ (g2 ++ post)) := by
      have he : g1 ++ (trueTok ++ (g2 ++ post)) =
          sgn ++ (ip ++ '.' :: (fp ++ (trueTok ++ (g2 ++ post)))) := by
        rw [hg1]; simp [List.append_assoc]
      rw [he, numFrac_exact hs hip hfp hne
        (fun c hc => (comma_head_not_digit c hc).1), ← hg1]
    exact ⟨res, by simp [matchAt, hpre, hdrop, hfrac, hres]⟩
  · obtain ⟨sgn, ip, hs, hg1, hip, hne⟩ := hi
    have he : g1 ++ (trueTok ++ (g2 ++ post)) =
        sgn ++ (ip ++ (trueTok ++ (g2 ++ post))) := by
      rw [hg1]; simp [List.append_assoc]
    have hfrac : numFrac (g1 ++ (trueTok ++ (g2 ++ post))) = none := by
      rw [he]
      exact numFrac_int_none hs hip hne comma_head_not_digit
    have hint : numInt (g1 ++ (trueTok ++ (g2 ++ post))) =
        some (g1, trueTok ++ (g2 ++ post)) := by
      rw [he, numInt_exact hs hip hne (fun c hc => (comma_head_not_digit c hc).1), ← hg1]
    exact ⟨res, by simp [matchAt, hpre, hdrop, hfrac, hint, hres]⟩

/-! ## The search -/

lemma matchAt_nil : matchAt [] = none := rfl

lemma reSearch_none_all {s : List Char} (h : reSearch s = none) :
    ∀ i, matchAt (s.drop i) = none := by
  induction s with
  | nil => intro i; rw [List.drop_nil]; exact matchAt_nil
  | cons c t ih =>
      intro i
      rw [reSearch] at h
      cases hm : matchAt (c :: t) with
      | some r => rw [hm] at h; cases h
      | none =>
          rw [hm] at h
          cases i with
          | zero => exact hm
          | succ j => exact ih h j

lemma reSearch_leftmost {s : List Char} {res : List Char × List Char}
    (h : reSearch s = some res) :
    ∃ i, matchAt (s.drop i) = some res ∧ ∀ j, j < i → matchAt (s.drop j) = none := by
  induction s with
  | nil => rw [reSearch] at h; cases h
  | cons c t ih =>
      rw [reSearch] at h
      cases hm : matchAt (c :: t) with
      | some r =>
          rw [hm] at h
          rw [Option.some.injEq] at h
          subst h
          exact ⟨0, hm, fun j hj => absurd hj (Nat.not_lt_zero j)⟩
      | none =>
          rw [hm] at h
          obtain ⟨i, h1, h2⟩ := ih h
          refine ⟨i + 1, h1, fun j hj => ?_⟩
          cases j with
          | zero => exact hm
          | succ k => exact h2 k (Nat.lt_of_succ_lt_succ hj)

lemma reSearch_ne_none {s : List Char} {i : ℕ} (h : matchAt (s.drop i) ≠ none) :
    reSearch s ≠ none := fun hn => h (reSearch_none_all hn i)

/-! ## From shapes to float success -/

lemma pyFloat_of_numeral {g : List Char} (hg : isNumeral g) :
    (pyFloat g).isSome = true := by
  rcases hg with ⟨sgn, ip, fp, hs, rfl, hip, hfp, hne⟩ | ⟨sgn, ip, hs, rfl, hip, hne⟩
  · have he : sgn ++ ip ++ '.' :: fp = sgn ++ (ip ++ '.' :: fp) := by
      simp [List.append_assoc]
    rw [he]
    have hsp := splitSign_on (ip ++ '.' :: fp) hs (head_frac_tail hip)
    have h1 := takeWhile_dropWhile_append pyIsDigit ip ('.' :: fp) hip
      (by intro c hc; simp only [List.head?_cons, Option.some.injEq] at hc; rw [← hc]; decide)
    have hall : fp.all pyIsDigit = true := List.all_eq_true.mpr hfp
    have hempfp : fp.isEmpty = false := isEmpty_false_of_ne hne
    simp only [pyFloat, hsp, h1.1, h1.2]
    simp [hall, hempfp]
  · have h1 := takeWhile_dropWhile_append pyIsDigit ip [] hip
      (by intro c hc; simp at hc)
    rw [List.append_nil] at h1
    have huip : ∀ c, ip.head? = some c → c = '.' ∨ pyIsDigit c = true := by
      intro c hc
      cases ip with
      | nil => simp at hc
      | cons d ds =>
          simp only [List.head?_cons, Option.some.injEq] at hc
          exact Or.inr (hc ▸ hip d (List.mem_cons_self d ds))
    have hsp : splitSign (sgn ++ ip) = (sgn, ip) := splitSign_on ip hs huip
    have hemp : ip.isEmpty = false := isEmpty_false_of_ne hne
    simp only [pyFloat, hsp, h1.1, h1.2]
    simp [hemp]

/-! ## The parser claims -/

lemma reSearch_groups {s g1 g2 : List Char} (h : reSearch s = some (g1, g2)) :
    isNumeral g1 ∧ isNumeral g2 ∧
      ∃ pre post, s = pre ++ predTok ++ g1 ++ trueTok ++ g2 ++ post := by
  obtain ⟨i, h1, -⟩ := reSearch_leftmost h
  obtain ⟨post, hdecomp, hn1, hn2⟩ := matchAt_sound h1
  refine ⟨hn1, hn2, s.take i, post, ?_⟩
  conv_lhs => rw [← List.take_append_drop i s, hdecomp]
  simp [List.append_assoc]

/-- **C8.** Parsing is total: on every line the parse step returns `.ok`
(a sample or a no-match) and never raises — the float conversion applied to
the regex-matched groups always succeeds — and a failed parse leaves the
producer state unchanged (the line is silently skipped). -/
theorem parser_total (line : List Char) :
    parseLineE line = .ok (parseLine line) ∧
    (∀ g1 g2, reSearch (pyStrip line) = some (g1, g2) →
      (pyFloat g1).isSome = true ∧ (pyFloat g2).isSome = true) ∧
    (∀ st : PState, parseLine line = none → step st line = st) := by
  have floats : ∀ g1 g2, reSearch (pyStrip line) = some (g1, g2) →
      (pyFloat g1).isSome = true ∧ (pyFloat g2).isSome = true := by
    intro g1 g2 hs
    obtain ⟨hn1, hn2, -⟩ := reSearch_groups hs
    exact ⟨pyFloat_of_numeral hn1, pyFloat_of_numeral hn2⟩
  refine ⟨?_, floats, fun st h => step_none h⟩
  cases hs : reSearch (pyStrip line) with
  | none => simp [parseLine, parseLineE, hs]
  | some gg =>
      obtain ⟨g1, g2⟩ := gg
      obtain ⟨hf1, hf2⟩ := floats g1 g2 hs
      obtain ⟨v1, hv1⟩ := Option.isSome_iff_exists.mp hf1
      obtain ⟨v2, hv2⟩ := Option.isSome_iff_exists.mp hf2
      simp [parseLine, parseLineE, hs, hv1, hv2]

/-- Witness for `parser_total` at concrete matching and non-matching lines. -/
theorem parser_total_witness :
    ((pyFloat ['3']).isSome = true ∧ (pyFloat ['4']).isSome = true) ∧
    step initState ("garbage".toList) = initState :=
  ⟨(parser_total "Pred:3,True:4".toList).2.1 ['3'] ['4'] (by decide),
   (parser_total "garbage".toList).2.2 initState (by decide)⟩

/-- **C2.** A line produces a sample iff, after stripping, it contains the
token `Pred:` immediately followed by a signed decimal numeral, then
`,True:`, then a second numeral, with arbitrary surrounding content; the
match is taken at the first (leftmost) occurrence of this token pattern,
and the returned values are the float values of the two matched numerals. -/
theorem parser_schema_iff (line : List Char) :
    ((parseLine line).isSome = true ↔
      ∃ pre g1 g2 post, pyStrip line = pre ++ predTok ++ g1 ++ trueTok ++ g2 ++ post ∧
        isNumeral g1 ∧ isNumeral g2) ∧
    (∀ g1 g2, reSearch (pyStrip line) = some (g1, g2) →
      (∃ v1 v2, pyFloat g1 = some v1 ∧ pyFloat g2 = some v2 ∧
        parseLine line = some (v1, v2)) ∧
      isNumeral g1 ∧ isNumeral g2 ∧
      ∃ i post, (pyStrip line).drop i = predTok ++ g1 ++ trueTok ++ g2 ++ post ∧
        ∀ j, j < i → ¬ ∃ ga gb post', (pyStrip line).drop j =
          predTok ++ ga ++ trueTok ++ gb ++ post' ∧ isNumeral ga ∧ isNumeral gb) := by
  have values : ∀ g1 g2, reSearch (pyStrip line) = some (g1, g2) →
      ∃ v1 v2, pyFloat g1 = some v1 ∧ pyFloat g2 = some v2 ∧
        parseLine line = some (v1, v2) := by
    intro g1 g2 hs
    obtain ⟨hn1, hn2, -⟩ := reSearch_groups hs
    obtain ⟨v1, hv1⟩ := Option.isSome_iff_exists.mp (pyFloat_of_numeral hn1)
    obtain ⟨v2, hv2⟩ := Option.isSome_iff_exists.mp (pyFloat_of_numeral hn2)
    exact ⟨v1, v2, hv1, hv2, parseLine_of_search hs hv1 hv2⟩
  constructor
  · constructor
    · intro h
      cases hs : reSearch (pyStrip line) with
      | none => rw [parseLine, parseLineE, hs] at h; cases h
      | some gg =>
          obtain ⟨g1, g2⟩ := gg
          obtain ⟨hn1, hn2, pre, post, hdecomp⟩ := reSearch_groups hs
          exact ⟨pre, g1, g2, post, hdecomp, hn1, hn2⟩
    · rintro ⟨pre, g1, g2, post, hdecomp, hn1, hn2⟩
      have hdrop : (pyStrip line).drop pre.length =
          predTok ++ g1 ++ trueTok ++ g2 ++ post := by
        rw [hdecomp]
        rw [show pre ++ predTok ++ g1 ++ trueTok ++ g2 ++ post =
          pre ++ (predTok ++ g1 ++ trueTok ++ g2 ++ post) by simp [List.append_assoc]]
        exact List.drop_left _ _
      obtain ⟨res, hres⟩ := matchAt_complete hn1 hn2
      have hne : reSearch (pyStrip line) ≠ none :=
        reSearch_ne_none (i := pre.length) (by rw [hdrop, hres]; simp)
      cases hs : reSearch (pyStrip line) with
      | none => exact absurd hs hne
      | some gg =>
          obtain ⟨ga, gb⟩ := gg
          obtain ⟨v1, v2, -, -, hp⟩ := values ga gb hs
          rw [hp]
          rfl
  · intro g1 g2 hs
    obtain ⟨hn1, hn2, -⟩ := reSearch_groups hs
    refine ⟨values g1 g2 hs, hn1, hn2, ?_⟩
    obtain ⟨i, h1, h2⟩ := reSearch_leftmost hs
    obtain ⟨post, hdecomp, -, -⟩ := matchAt_sound h1
    refine ⟨i, post, hdecomp, ?_⟩
    rintro j hj ⟨ga, gb, post', hdec', hna, hnb⟩
    obtain ⟨res, hres⟩ := matchAt_complete hna hnb
    rw [← hdec'] at hres
    rw [h2 j hj] at hres
    cases hres

/-- Witness for `parser_schema_iff` at a concrete matching line whose first
numeral is a non-ASCII decimal digit (U+0661), which Python's `\d` matches
and `float` converts to 1. -/
theorem parser_schema_iff_witness :
    ∃ v1 v2, pyFloat ['١'] = some v1 ∧ pyFloat ['2'] = some v2 ∧
      parseLine "Pred:١,True:2".toList = some (v1, v2) :=
  (((parser_schema_iff "Pred:١,True:2".toList).2 ['١'] ['2'] (by decide))).1

end Plotter
